import Mathlib

/-!
Verification development for the phonological feature / rule engine of the
Old English orthophonology tutorial.  The tutorial notebook drives the module
`cltk.phonology.old_english.orthophonology`; that module itself is not part of
this repository, so the engine's data model and operations are modelled from
the repository's specification (spec.md) and from the behaviour documented by
the notebook's own code cells and recorded outputs.  The notebook's own helper
`apply_rule` is translated directly from its source cell.
-/

namespace Orthophonology

/-- Modelled from the spec: a Feature Value is an immutable (feature, ordinal)
pair; the feature is identified by its name and the ordinal is the value's
index in the feature's declared value list (missing module:
`cltk.phonology.orthophonology`, class hierarchy of `PhonologicalFeature`). -/
structure FeatureValue where
  feature : String
  ordinal : Nat
deriving DecidableEq

/-- Modelled from the spec: a Phoneme is an immutable bundle of feature-value
assignments (a feature appears at most once) plus an optional surface (IPA)
symbol (missing module: `AbstractPhoneme` / `Phoneme`). -/
structure Phoneme where
  bundle : List FeatureValue
  symbol : Option String
deriving DecidableEq

/-- First ordinal assigned to the given feature name in a bundle, if any. -/
def findOrd : List FeatureValue → String → Option Nat
  | [], _ => none
  | fv :: rest, f => if fv.feature = f then some fv.ordinal else findOrd rest f

/-- Modelled from the spec: querying a feature not present in the bundle
yields "unspecified" (`none`), not an error and not a default value. -/
def Phoneme.getFeature (p : Phoneme) (f : String) : Option Nat :=
  findOrd p.bundle f

/-- Modelled from the spec: dictionary-style update of a bundle — the entry
for the value's feature is overwritten in place if present, otherwise the
value is appended. -/
def setFeature : List FeatureValue → FeatureValue → List FeatureValue
  | [], v => [v]
  | fv :: rest, v =>
      if fv.feature = v.feature then v :: rest else fv :: setFeature rest v

/-- Modelled from the spec: merge a list of feature values into a copy of the
phoneme, applied left-to-right so that later entries win on conflict; the
surface symbol of the phoneme is kept (notebook cell: `a << [Backness.central,
Height.close]` keeps symbol `ɑ`). -/
def Phoneme.mergeValues (p : Phoneme) (vs : List FeatureValue) : Phoneme :=
  { bundle := vs.foldl setFeature p.bundle, symbol := p.symbol }

/-- Modelled from the spec and the notebook's recorded output: merging a full
phoneme replaces the bundle and the symbol wholesale with the right
argument's — the recorded result of `a << t` carries exactly t's six features
and none of a's (the notebook calls it "a silly copy of t"). -/
def Phoneme.mergePhoneme (_p q : Phoneme) : Phoneme :=
  { bundle := q.bundle, symbol := q.symbol }

/-- Right-hand argument of the merge operator `<<`: a full phoneme, a bare
feature value, or an ordered list of feature values. -/
inductive MergeArg where
  | ph (q : Phoneme)
  | fv (v : FeatureValue)
  | fvs (vs : List FeatureValue)
deriving DecidableEq

/-- Modelled from the spec: the merge operator `A << B` (`mergedWith`),
dispatching on the kind of the right-hand argument. -/
def Phoneme.mergedWith (p : Phoneme) : MergeArg → Phoneme
  | MergeArg.ph q => p.mergePhoneme q
  | MergeArg.fv v => p.mergeValues [v]
  | MergeArg.fvs vs => p.mergeValues vs

/-- Modelled from the spec: subset test `A <= B` on bundles — every
(feature, value) pair in A's bundle is also present in B's bundle. -/
def Phoneme.isSubsetOf (p q : Phoneme) : Bool :=
  p.bundle.all (fun fv => q.bundle.contains fv)

/-- A member of a disjunctive list: a phoneme or a bare feature value. -/
inductive SimpleMatcher where
  | ph (p : Phoneme)
  | fv (v : FeatureValue)
deriving DecidableEq

/-- Modelled from the spec: a bare feature value used in a matching context is
lifted to a single-feature abstract phoneme. -/
def SimpleMatcher.toPhoneme : SimpleMatcher → Phoneme
  | SimpleMatcher.ph p => p
  | SimpleMatcher.fv v => { bundle := [v], symbol := none }

/-- A matcher: a single phoneme / feature value, or a disjunctive list. -/
inductive Matcher where
  | simple (m : SimpleMatcher)
  | disj (ms : List SimpleMatcher)
deriving DecidableEq

/-- Modelled from the spec: disjunction construction `A // B` (`orElse`);
chaining flattens into one ordered list, not nested disjunctions. -/
def Matcher.orElse : Matcher → Matcher → Matcher
  | Matcher.simple m, Matcher.simple n => Matcher.disj [m, n]
  | Matcher.simple m, Matcher.disj ns => Matcher.disj (m :: ns)
  | Matcher.disj ms, Matcher.simple n => Matcher.disj (ms ++ [n])
  | Matcher.disj ms, Matcher.disj ns => Matcher.disj (ms ++ ns)

/-- Modelled from the spec: the test `X <= M` — all of X's features are found
in M; against a disjunction it succeeds iff it succeeds against at least one
member (OR semantics). -/
def leMatcher (X : Phoneme) : Matcher → Bool
  | Matcher.simple m => X.isSubsetOf m.toPhoneme
  | Matcher.disj ms => ms.any (fun m => X.isSubsetOf m.toPhoneme)

/-- Modelled from the spec: the test `X >= M` — X contains all of M's
features; against a disjunction it succeeds iff it succeeds against at least
one member (OR semantics). -/
def geMatcher (X : Phoneme) : Matcher → Bool
  | Matcher.simple m => m.toPhoneme.isSubsetOf X
  | Matcher.disj ms => ms.any (fun m => m.toPhoneme.isSubsetOf X)

/-- An element of the phoneme sequence seen by environment tests: a real
phoneme or a boundary sentinel; boundaries are distinguished by tag, never by
absence of a value. -/
inductive SeqElem where
  | ph (p : Phoneme)
  | wordBoundary
  | syllableBoundary
deriving DecidableEq

/-- A matcher usable on either side of an environment: `ANY`, the word
boundary `W`, the syllable boundary `S`, or an ordinary matcher. -/
inductive EnvMatcher where
  | any
  | w
  | s
  | m (M : Matcher)
deriving DecidableEq

/-- Modelled from the spec: whether an environment matcher accepts a
neighbouring position.  `ANY` matches any phoneme or boundary (including
absence); an ordinary matcher matches a phoneme per the subset rule;
`W` / `S` match the corresponding boundary sentinel; absence (a position
outside the sequence, `none`) is treated as a `W` match. -/
def EnvMatcher.accepts : EnvMatcher → Option SeqElem → Bool
  | EnvMatcher.any, _ => true
  | EnvMatcher.w, none => true
  | EnvMatcher.w, some SeqElem.wordBoundary => true
  | EnvMatcher.w, some _ => false
  | EnvMatcher.s, some SeqElem.syllableBoundary => true
  | EnvMatcher.s, _ => false
  | EnvMatcher.m M, some (SeqElem.ph p) => geMatcher p M
  | EnvMatcher.m _, _ => false

/-- Modelled from the spec: an environment is an immutable predicate built
from a left matcher and a right matcher (the `-` operator on phonemes). -/
structure Environment where
  left : EnvMatcher
  right : EnvMatcher
deriving DecidableEq

/-- Modelled from the spec: `Environment.test(previous, current, next)` is
true iff the left matcher accepts the previous element and the right matcher
accepts the next element; the current phoneme is informational only and is not
matched. -/
def Environment.test (e : Environment) (prev : Option SeqElem) (_curr : Phoneme)
    (next : Option SeqElem) : Bool :=
  e.left.accepts prev && e.right.accepts next

/-- Right-hand action of a rule: a feature delta (one or more feature values
merged onto the target) or a replacement phoneme or phoneme sequence. -/
inductive Action where
  | features (vs : List FeatureValue)
  | replace (p : Phoneme)
  | replaceSeq (ps : List Phoneme)
deriving DecidableEq

/-- Modelled from the spec: a phonological rule is an immutable record of a
condition matcher, an action, and an optional environment. -/
structure PhonologicalRule where
  condition : Matcher
  action : Action
  environment : Option Environment
deriving DecidableEq

/-- Result of applying a rule's action at one position: a single phoneme, or a
multi-phoneme rewrite (which changes the output length). -/
inductive RuleResult where
  | one (p : Phoneme)
  | many (ps : List Phoneme)
deriving DecidableEq

/-- Modelled from the spec: produce a rule's action on a target phoneme — a
feature delta is merged onto the target, a replacement is substituted
directly. -/
def applyAction : Action → Phoneme → RuleResult
  | Action.features vs, p => RuleResult.one (p.mergeValues vs)
  | Action.replace q, _ => RuleResult.one q
  | Action.replaceSeq qs, _ => RuleResult.many qs

/-- Modelled from the spec and the notebook: calling a rule directly on a
sequence and a position applies its action unconditionally, without consulting
the condition (notebook cell: `rule1([b], 0)` lengthens the consonant `b`).
Returns `none` only when the position is out of range. -/
def PhonologicalRule.call (r : PhonologicalRule) (phonemes : List Phoneme)
    (pos : Nat) : Option RuleResult :=
  (phonemes[pos]?).map (applyAction r.action)

/-- Modelled from the spec: the condition check — the condition matcher is on
the left of the subset test, the target phoneme on the right
(`condition <= target`). -/
def PhonologicalRule.checkCondition (r : PhonologicalRule) (p : Phoneme) : Bool :=
  geMatcher p r.condition

/-- The element preceding a position, `none` at the left sequence edge. -/
def prevElem (phonemes : List Phoneme) (pos : Nat) : Option SeqElem :=
  if pos = 0 then none else (phonemes[pos - 1]?).map SeqElem.ph

/-- The element following a position, `none` at the right sequence edge. -/
def nextElem (phonemes : List Phoneme) (pos : Nat) : Option SeqElem :=
  (phonemes[pos + 1]?).map SeqElem.ph

/-- Modelled from the spec and the notebook: `rule.check_environment(phonemes,
pos)` is true iff the target phoneme satisfies the rule's condition and, when
an environment is attached, the environment tests true against the neighbours
of the position. -/
def PhonologicalRule.check_environment (r : PhonologicalRule)
    (phonemes : List Phoneme) (pos : Nat) : Bool :=
  match phonemes[pos]? with
  | none => false
  | some p =>
      r.checkCondition p &&
        (match r.environment with
         | none => true
         | some e => e.test (prevElem phonemes pos) p (nextElem phonemes pos))

/-- Translated from the notebook source cell: `apply_rule(rule, phonemes,
pos)` returns `rule(phonemes, pos)` when `rule.check_environment(phonemes,
pos)` holds, and `phonemes[pos]` (the original phoneme, unchanged) otherwise. -/
def apply_rule (rule : PhonologicalRule) (phonemes : List Phoneme) (pos : Nat) :
    Option RuleResult :=
  if rule.check_environment phonemes pos then rule.call phonemes pos
  else (phonemes[pos]?).map RuleResult.one

/-- Modelled from the spec: composing an environment onto a rule (the `|`
operator, `withEnvironment`) returns a new Rule value with the same condition
and action; the original rule is a value and is not modified. -/
def PhonologicalRule.withEnvironment (r : PhonologicalRule) (e : Environment) :
    PhonologicalRule :=
  { r with environment := some e }

/-- Modelled from the spec: one left-to-right sweep of a rule over a sequence.
`done` is the already-processed output prefix and the remaining suffix is
scanned once; a position the rule rewrites is not revisited, so a rule never
re-triggers on its own output within the same pass.  The check at each step
sees the current state of the sequence. -/
def sweepFrom (r : PhonologicalRule) : List Phoneme → List Phoneme → List Phoneme
  | done, [] => done
  | done, p :: rest =>
      if r.check_environment (done ++ p :: rest) done.length then
        match applyAction r.action p with
        | RuleResult.one q => sweepFrom r (done ++ [q]) rest
        | RuleResult.many qs => sweepFrom r (done ++ qs) rest
      else sweepFrom r (done ++ [p]) rest

/-- Modelled from the spec: apply one rule in a single left-to-right sweep
across the whole sequence (no fixed-point iteration). -/
def applyRule (r : PhonologicalRule) (phonemes : List Phoneme) : List Phoneme :=
  sweepFrom r [] phonemes

/-- Modelled from the spec: apply the rules in declaration order; the output
sequence of rule i becomes the input sequence of rule i+1. -/
def applyRules (rs : List PhonologicalRule) (phonemes : List Phoneme) :
    List Phoneme :=
  rs.foldl (fun seq r => applyRule r seq) phonemes

/-- True iff the grapheme (first list) occurs at the start of the text
(second list). -/
def graphemeAt : List Char → List Char → Bool
  | [], _ => true
  | _ :: _, [] => false
  | c :: cs, d :: ds => c = d && graphemeAt cs ds

/-- Modelled from the spec: longest-match-first lookup — among the alphabet
entries whose grapheme matches at the current position, pick one of maximal
length (the first such entry, on ties). -/
def longestMatch : List (String × Phoneme) → List Char → Option (String × Phoneme)
  | [], _ => none
  | e :: rest, s =>
      if graphemeAt e.1.toList s then
        match longestMatch rest s with
        | none => some e
        | some b => if b.1.length > e.1.length then some b else some e
      else longestMatch rest s

/-- Modelled from the spec: greedy longest-match grapheme scan; an unmatched
position fails (`UnknownGraphemeError`, the fail-fast default policy).  The
fuel argument bounds the recursion by the input length. -/
def tokenizeAux (alphabet : List (String × Phoneme)) :
    Nat → List Char → Option (List Phoneme)
  | _, [] => some []
  | 0, _ :: _ => none
  | fuel + 1, c :: cs =>
      match longestMatch alphabet (c :: cs) with
      | none => none
      | some (g, p) =>
          if g.length = 0 then none
          else (tokenizeAux alphabet fuel ((c :: cs).drop g.length)).map
            (fun ps => p :: ps)

/-- Modelled from the spec: tokenize an input string against the alphabet. -/
def tokenize (alphabet : List (String × Phoneme)) (s : String) :
    Option (List Phoneme) :=
  tokenizeAux alphabet s.length s.toList

/-- Modelled from the spec: a transcriber owns an ordered rule list, a sound
inventory and a grapheme-to-phoneme alphabet. -/
structure Transcriber where
  alphabet : List (String × Phoneme)
  rules : List PhonologicalRule
  sound_inventory : List Phoneme
deriving DecidableEq

/-- Modelled from the spec: output assembly — each final phoneme contributes
the surface symbol of the inventory phoneme whose bundle matches it exactly,
falling back to its own symbol (or nothing) when no inventory phoneme
matches. -/
def render (inventory : List Phoneme) (ps : List Phoneme) : String :=
  String.join (ps.map (fun p =>
    match inventory.find? (fun q => q.bundle == p.bundle) with
    | some q => q.symbol.getD ""
    | none => p.symbol.getD ""))

/-- Modelled from the spec: `transcribe(text)` — tokenize, thread the phoneme
sequence through the ordered rule list, then assemble the output string. -/
def transcribe (t : Transcriber) (text : String) : Option String :=
  (tokenize t.alphabet text).map
    (fun ps => render t.sound_inventory (applyRules t.rules ps))

/-- Error taxonomy of the engine (only the case the claims need). -/
inductive PhonologyError where
  | IncomparableSonorityError
deriving DecidableEq

/-- Modelled from the spec: sonority comparison is defined only when both
phonemes specify a common sonority-bearing feature (the catalog's declared
list `sonorityFeatures`), in which case the ordinals of that feature's values
are compared; otherwise it fails with `IncomparableSonorityError` rather than
returning a boolean. -/
def sonorityCompare (sonorityFeatures : List String) (A B : Phoneme) :
    Except PhonologyError Ordering :=
  match sonorityFeatures.find?
      (fun f => (A.getFeature f).isSome && (B.getFeature f).isSome) with
  | none => Except.error PhonologyError.IncomparableSonorityError
  | some f => Except.ok (compare ((A.getFeature f).getD 0) ((B.getFeature f).getD 0))

namespace OEFeatures

/-- Binary feature values use the convention neg = 1, pos = 2 (notebook:
`Voiced.neg` is 1, `Voiced.pos` is 2); ordinals follow declaration order. -/
def Consonantal.neg : FeatureValue := ⟨"Consonantal", 1⟩

def Consonantal.pos : FeatureValue := ⟨"Consonantal", 2⟩

def Voiced.neg : FeatureValue := ⟨"Voiced", 1⟩

def Voiced.pos : FeatureValue := ⟨"Voiced", 2⟩

def Aspirated.neg : FeatureValue := ⟨"Aspirated", 1⟩

def Geminate.neg : FeatureValue := ⟨"Geminate", 1⟩

def Roundedness.neg : FeatureValue := ⟨"Roundedness", 1⟩

def Roundedness.pos : FeatureValue := ⟨"Roundedness", 2⟩

def Height.close : FeatureValue := ⟨"Height", 1⟩

def Height.mid : FeatureValue := ⟨"Height", 4⟩

def Height.open : FeatureValue := ⟨"Height", 7⟩

def Backness.front : FeatureValue := ⟨"Backness", 1⟩

def Backness.central : FeatureValue := ⟨"Backness", 2⟩

def Backness.back : FeatureValue := ⟨"Backness", 3⟩

def Length.short : FeatureValue := ⟨"Length", 1⟩

def Length.long : FeatureValue := ⟨"Length", 2⟩

def Manner.stop : FeatureValue := ⟨"Manner", 1⟩

def Manner.fricative : FeatureValue := ⟨"Manner", 2⟩

def Place.bilabial : FeatureValue := ⟨"Place", 1⟩

def Place.alveolar : FeatureValue := ⟨"Place", 4⟩

def Place.post_alveolar : FeatureValue := ⟨"Place", 5⟩

def Place.velar : FeatureValue := ⟨"Place", 8⟩

end OEFeatures

namespace OE

open OEFeatures

/-- The phoneme /ɑ/ of the notebook's sound inventory. -/
def a : Phoneme :=
  ⟨[Consonantal.neg, Height.open, Backness.back, Roundedness.neg, Length.short],
   some "ɑ"⟩

/-- The phoneme /e/ of the notebook's sound inventory. -/
def e : Phoneme :=
  ⟨[Consonantal.neg, Height.mid, Backness.front, Roundedness.neg, Length.short],
   some "e"⟩

/-- The phoneme /i/ of the notebook's sound inventory. -/
def i : Phoneme :=
  ⟨[Consonantal.neg, Height.close, Backness.front, Roundedness.neg, Length.short],
   some "i"⟩

/-- The phoneme /b/ of the notebook's sound inventory. -/
def b : Phoneme :=
  ⟨[Consonantal.pos, Place.bilabial, Manner.stop, Voiced.pos, Aspirated.neg,
    Geminate.neg], some "b"⟩

/-- The phoneme /t/ of the notebook's sound inventory. -/
def t : Phoneme :=
  ⟨[Consonantal.pos, Place.alveolar, Manner.stop, Voiced.neg, Aspirated.neg,
    Geminate.neg], some "t"⟩

/-- The phoneme /p/ of the notebook's sound inventory. -/
def p : Phoneme :=
  ⟨[Consonantal.pos, Place.bilabial, Manner.stop, Voiced.neg, Aspirated.neg,
    Geminate.neg], some "p"⟩

/-- The phoneme /s/ of the notebook's sound inventory. -/
def s : Phoneme :=
  ⟨[Consonantal.pos, Place.alveolar, Manner.fricative, Voiced.neg, Aspirated.neg,
    Geminate.neg], some "s"⟩

/-- The phoneme /k/ of the notebook's sound inventory. -/
def k : Phoneme :=
  ⟨[Consonantal.pos, Place.velar, Manner.stop, Voiced.neg, Aspirated.neg,
    Geminate.neg], some "k"⟩

/-- The phoneme /ʃ/ of the notebook's sound inventory. -/
def sh : Phoneme :=
  ⟨[Consonantal.pos, Place.post_alveolar, Manner.fricative, Voiced.neg,
    Aspirated.neg, Geminate.neg], some "ʃ"⟩

/-- The notebook's lengthening rule `rule1 = Length.short >> Length.long`. -/
def lengthRule : PhonologicalRule :=
  ⟨Matcher.simple (SimpleMatcher.fv Length.short),
   Action.features [Length.long], none⟩

/-- The fragment of the alphabet needed for the digraph scenario: the
single-character graphemes around `sc` plus the digraph `sc` itself, which the
tutorial tokenizes to the single phoneme /ʃ/ (`oe('scip')` yields `ʃip`). -/
def scAlphabet : List (String × Phoneme) :=
  [("s", s), ("c", k), ("i", i), ("p", p), ("sc", sh)]

end OE

/-! Theorems settling the claims. -/

/-- C2: for every phoneme or feature value X and every disjunction built with
orElse, the subset test against the disjunction succeeds iff it succeeds
against at least one member (OR semantics), on both sides of the comparison:
X <= A.orElse(B) iff X <= A or X <= B, and X >= A.orElse(B) iff X >= A or
X >= B. -/
theorem claim2_disjunction_or_semantics (X : SimpleMatcher) (A B : Matcher) :
    leMatcher X.toPhoneme (A.orElse B) =
      (leMatcher X.toPhoneme A || leMatcher X.toPhoneme B)
    ∧ geMatcher X.toPhoneme (A.orElse B) =
      (geMatcher X.toPhoneme A || geMatcher X.toPhoneme B) := by
  constructor <;> cases A <;> cases B <;>
    simp [Matcher.orElse, leMatcher, geMatcher, List.any_append]

/-- C5: the environment test on a triple (previous, current, next) is true iff
the left matcher accepts previous and the right matcher accepts next; the
current phoneme is not matched; ANY accepts any phoneme or boundary, W accepts
exactly a word boundary or an absent position (outside the sequence), and an
ordinary matcher matches a phoneme per the subset rule and never matches an
absent position. -/
theorem claim5_environment_test (l r : EnvMatcher) (M : Matcher)
    (prev next : Option SeqElem) (curr p : Phoneme) :
    ((Environment.mk l r).test prev curr next = (l.accepts prev && r.accepts next))
    ∧ EnvMatcher.any.accepts prev = true
    ∧ (EnvMatcher.w.accepts prev = true ↔
        (prev = none ∨ prev = some SeqElem.wordBoundary))
    ∧ (EnvMatcher.m M).accepts (some (SeqElem.ph p)) = geMatcher p M
    ∧ (EnvMatcher.m M).accepts none = false := by
  refine ⟨rfl, ?_, ?_, rfl, rfl⟩
  · cases prev with
    | none => rfl
    | some x => rfl
  · cases prev with
    | none => simp [EnvMatcher.accepts]
    | some x => cases x <;> simp [EnvMatcher.accepts]

/-- C3: if the rule's condition check (condition <= target phoneme, the subset
test) is false, then applying the rule at that position via apply_rule is a
no-op: the original phoneme at that position is returned unchanged. -/
theorem claim3_noop_on_condition_failure (r : PhonologicalRule)
    (phonemes : List Phoneme) (pos : Nat) (p : Phoneme)
    (hp : phonemes[pos]? = some p)
    (hc : r.checkCondition p = false) :
    apply_rule r phonemes pos = some (RuleResult.one p) := by
  have hce : r.check_environment phonemes pos = false := by
    unfold PhonologicalRule.check_environment
    rw [hp]
    simp [hc]
  unfold apply_rule
  rw [hce]
  simp [hp]

/-- Witness for C3: the lengthening rule's condition fails on the consonant
/b/, and apply_rule passes /b/ through unchanged (the notebook's
`apply_rule(rule1, [b], 0)` cell). -/
theorem claim3_witness :
    apply_rule OE.lengthRule [OE.b] 0 = some (RuleResult.one OE.b) :=
  claim3_noop_on_condition_failure OE.lengthRule [OE.b] 0 OE.b (by decide)
    (by decide)

/-- C8: composing an environment onto a rule returns a new Rule value whose
condition and action are identical to the original's, the condition check is
unchanged, and at apply time the condition check and the environment check are
independent conjuncts that must both pass. -/
theorem claim8_with_environment (r : PhonologicalRule) (e : Environment)
    (phonemes : List Phoneme) (pos : Nat) (p : Phoneme) :
    ((r.withEnvironment e).condition = r.condition)
    ∧ ((r.withEnvironment e).action = r.action)
    ∧ ((r.withEnvironment e).environment = some e)
    ∧ ((r.withEnvironment e).checkCondition p = r.checkCondition p)
    ∧ (phonemes[pos]? = some p →
        (r.withEnvironment e).check_environment phonemes pos =
          (r.checkCondition p &&
            e.test (prevElem phonemes pos) p (nextElem phonemes pos))) := by
  refine ⟨rfl, rfl, rfl, rfl, fun hp => ?_⟩
  unfold PhonologicalRule.check_environment
  rw [hp]
  rfl

/-- Witness for C8: evaluating the composed check on the concrete sequence
[a] at position 0, with the word-initial environment from the notebook. -/
theorem claim8_witness :
    (OE.lengthRule.withEnvironment (Environment.mk EnvMatcher.w EnvMatcher.any)).check_environment
        [OE.a] 0 =
      (OE.lengthRule.checkCondition OE.a &&
        (Environment.mk EnvMatcher.w EnvMatcher.any).test (prevElem [OE.a] 0)
          OE.a (nextElem [OE.a] 0)) :=
  (claim8_with_environment OE.lengthRule
    (Environment.mk EnvMatcher.w EnvMatcher.any) [OE.a] 0 OE.a).2.2.2.2 rfl

/-- C9: calling a rule object directly applies its action unconditionally,
without consulting the condition; in particular the lengthening rule applied
to the consonant /b/ yields /b/ with Length.long added, even though /b/ fails
the condition, which only the separate check_environment call consults. -/
theorem claim9_unconditional_call (r : PhonologicalRule)
    (phonemes : List Phoneme) (pos : Nat) (p : Phoneme) :
    (phonemes[pos]? = some p →
       r.call phonemes pos = some (applyAction r.action p))
    ∧ OE.lengthRule.call [OE.b] 0 =
        some (RuleResult.one (OE.b.mergeValues [OEFeatures.Length.long]))
    ∧ OE.lengthRule.checkCondition OE.b = false
    ∧ OE.lengthRule.check_environment [OE.b] 0 = false := by
  refine ⟨fun hp => ?_, by decide, by decide, by decide⟩
  unfold PhonologicalRule.call
  rw [hp]
  rfl

/-- Witness for C9: the unconditional call evaluated on the concrete sequence
[b] at position 0. -/
theorem claim9_witness :
    OE.lengthRule.call [OE.b] 0 =
      some (applyAction OE.lengthRule.action OE.b) :=
  (claim9_unconditional_call OE.lengthRule [OE.b] 0 OE.b).1 rfl

/-- C10: merging a bare feature value or a list of feature values into a
phoneme preserves its surface symbol even when the bundle changes, whereas
merging a full phoneme replaces the symbol with the right argument's symbol;
concretely a << [Backness.central, Height.close] still displays ɑ while
a << t displays t. -/
theorem claim10_merge_symbol (A B : Phoneme) (v : FeatureValue)
    (vs : List FeatureValue) :
    ((A.mergedWith (MergeArg.fvs vs)).symbol = A.symbol)
    ∧ ((A.mergedWith (MergeArg.fv v)).symbol = A.symbol)
    ∧ ((A.mergedWith (MergeArg.ph B)).symbol = B.symbol)
    ∧ ((OE.a.mergedWith
          (MergeArg.fvs [OEFeatures.Backness.central, OEFeatures.Height.close])).symbol
        = some "ɑ")
    ∧ ((OE.a.mergedWith (MergeArg.ph OE.t)).symbol = some "t") :=
  ⟨rfl, rfl, rfl, rfl, rfl⟩

lemma longestMatch_eq_none (A : List (String × Phoneme)) (s : List Char)
    (h : longestMatch A s = none) :
    ∀ e ∈ A, graphemeAt e.1.toList s = false := by
  induction A with
  | nil => intro e he; cases he
  | cons x rest ih =>
      intro e he
      by_cases hm : graphemeAt x.1.toList s
      · exfalso
        rw [longestMatch, if_pos hm] at h
        cases hfind : longestMatch rest s with
        | none => rw [hfind] at h; cases h
        | some b => rw [hfind] at h; by_cases hl : b.1.length > x.1.length <;>
            simp [hl] at h
      · rw [longestMatch, if_neg hm] at h
        cases he with
        | head => simpa using hm
        | tail _ he' => exact ih h e he'

lemma longestMatch_spec (A : List (String × Phoneme)) (s : List Char)
    (e : String × Phoneme) (h : longestMatch A s = some e) :
    e ∈ A ∧ graphemeAt e.1.toList s = true ∧
      ∀ e' ∈ A, graphemeAt e'.1.toList s = true → e'.1.length ≤ e.1.length := by
  induction A generalizing e with
  | nil => cases h
  | cons x rest ih =>
      by_cases hm : graphemeAt x.1.toList s
      · rw [longestMatch, if_pos hm] at h
        cases hfind : longestMatch rest s with
        | none =>
            rw [hfind] at h
            cases h
            refine ⟨List.mem_cons_self x rest, hm, ?_⟩
            intro e' he' hm'
            cases he' with
            | head => exact le_refl _
            | tail _ he'' =>
                have hnone := longestMatch_eq_none rest s hfind e' he''
                rw [hm'] at hnone
                simp at hnone
        | some b =>
            rw [hfind] at h
            have h' : (if b.1.length > x.1.length then some b else some x) = some e := h
            obtain ⟨hbmem, hbm, hble⟩ := ih b hfind
            by_cases hl : b.1.length > x.1.length
            · rw [if_pos hl] at h'
              cases h'
              refine ⟨List.mem_cons_of_mem x hbmem, hbm, ?_⟩
              intro e' he' hm'
              cases he' with
              | head => exact Nat.le_of_lt hl
              | tail _ he'' => exact hble e' he'' hm'
            · rw [if_neg hl] at h'
              cases h'
              refine ⟨List.mem_cons_self x rest, hm, ?_⟩
              intro e' he' hm'
              cases he' with
              | head => exact le_refl _
              | tail _ he'' =>
                  exact le_trans (hble e' he'' hm') (Nat.le_of_not_lt hl)
      · rw [longestMatch, if_neg hm] at h
        obtain ⟨hmem, hgm, hle⟩ := ih e h
        refine ⟨List.mem_cons_of_mem x hmem, hgm, ?_⟩
        intro e' he' hm'
        cases he' with
        | head => exact absurd hm' (by simpa using hm)
        | tail _ he'' => exact hle e' he'' hm'

/-- C6: tokenization scans the input with greedy longest-match lookup against
the alphabet: whatever entry longestMatch selects is a matching grapheme of
maximal length among all matching alphabet entries; in particular, the
declared digraph grapheme sc is selected over the single letter s, and
tokenizing "scip" consumes sc as one unit mapped to the one phoneme /ʃ/, never
as two single-character lookups. -/
theorem claim6_tokenize_greedy_longest_match (alphabet : List (String × Phoneme))
    (s : List Char) (g : String) (p : Phoneme) :
    (longestMatch alphabet s = some (g, p) →
       ((g, p) ∈ alphabet ∧ graphemeAt g.toList s = true
        ∧ ∀ e' ∈ alphabet, graphemeAt e'.1.toList s = true →
            e'.1.length ≤ g.length))
    ∧ longestMatch OE.scAlphabet ("scip".toList) = some ("sc", OE.sh)
    ∧ tokenize OE.scAlphabet "scip" = some [OE.sh, OE.i, OE.p] := by
  refine ⟨fun h => longestMatch_spec alphabet s (g, p) h, by decide, by decide⟩

/-- Witness for C6: the greedy-lookup theorem instantiated at the digraph
alphabet and the input "scip", where the selected grapheme is sc. -/
theorem claim6_witness :
    graphemeAt ("sc".toList) ("scip".toList) = true :=
  ((claim6_tokenize_greedy_longest_match OE.scAlphabet ("scip".toList) "sc"
      OE.sh).1 (by decide)).2.1

/-- C7: sonority comparison is defined only when the two phonemes share a
sonority-bearing feature that both specify: when the catalog finds such a
common feature, the comparison returns the comparison of that feature's value
ordinals; when no common sonority feature exists it fails with
IncomparableSonorityError rather than returning a boolean. -/
theorem claim7_sonority_comparison (fs : List String) (A B : Phoneme) :
    (sonorityCompare fs A B =
        Except.error PhonologyError.IncomparableSonorityError
      ↔ ∀ f ∈ fs, A.getFeature f = none ∨ B.getFeature f = none)
    ∧ (∀ f x y,
        fs.find? (fun g => (A.getFeature g).isSome && (B.getFeature g).isSome)
          = some f →
        A.getFeature f = some x → B.getFeature f = some y →
        sonorityCompare fs A B = Except.ok (compare x y)) := by
  cases hfind : fs.find?
      (fun g => (A.getFeature g).isSome && (B.getFeature g).isSome) with
  | none =>
      have herr : sonorityCompare fs A B =
          Except.error PhonologyError.IncomparableSonorityError := by
        unfold sonorityCompare
        rw [hfind]
      refine ⟨⟨fun _ f hf => ?_, fun _ => herr⟩, fun f x y hfind' _ _ => ?_⟩
      · have hfalse := List.find?_eq_none.mp hfind f hf
        rcases hA : A.getFeature f with _ | x
        · exact Or.inl rfl
        · rcases hB : B.getFeature f with _ | y
          · exact Or.inr rfl
          · exfalso
            apply hfalse
            rw [hA, hB]
            rfl
      · cases hfind'
  | some f =>
      have hp := List.find?_some hfind
      have hmem := List.mem_of_find?_eq_some hfind
      simp only [Bool.and_eq_true, Option.isSome_iff_exists] at hp
      obtain ⟨⟨x, hx⟩, ⟨y, hy⟩⟩ := hp
      have hcomp : sonorityCompare fs A B = Except.ok (compare x y) := by
        unfold sonorityCompare
        rw [hfind]
        simp [hx, hy]
      refine ⟨⟨fun h => ?_, fun hall => ?_⟩, fun f' x' y' hfind' hx' hy' => ?_⟩
      · rw [hcomp] at h
        exact Except.noConfusion h
      · exfalso
        rcases hall f hmem with h1 | h1
        · rw [h1] at hx
          cases hx
        · rw [h1] at hy
          cases hy
      · injection hfind' with hff
        subst hff
        rw [hx] at hx'
        injection hx' with hxx
        subst hxx
        rw [hy] at hy'
        injection hy' with hyy
        subst hyy
        exact hcomp

/-- Witness for C7: /t/ and /ɑ/ share no Manner value, so with Manner as the
sonority-bearing feature the comparison fails with IncomparableSonorityError. -/
theorem claim7_witness :
    sonorityCompare ["Manner"] OE.t OE.a =
      Except.error PhonologyError.IncomparableSonorityError :=
  (claim7_sonority_comparison ["Manner"] OE.t OE.a).1.mpr (by decide)

lemma findOrd_append (l1 l2 : List FeatureValue) (f : String) :
    findOrd (l1 ++ l2) f = (findOrd l1 f).or (findOrd l2 f) := by
  induction l1 with
  | nil => rfl
  | cons x l ih =>
      rw [List.cons_append]
      by_cases h : x.feature = f
      · simp [findOrd, h]
      · simp [findOrd, h, ih]

lemma findOrd_setFeature (b : List FeatureValue) (v : FeatureValue) (f : String) :
    findOrd (setFeature b v) f =
      if v.feature = f then some v.ordinal else findOrd b f := by
  induction b with
  | nil =>
      show findOrd [v] f = if v.feature = f then some v.ordinal else findOrd [] f
      by_cases h : v.feature = f
      · simp [findOrd, h]
      · simp [findOrd, h]
  | cons fv rest ih =>
      by_cases h1 : fv.feature = v.feature
      · have hsf : setFeature (fv :: rest) v = v :: rest := by
          rw [setFeature, if_pos h1]
        rw [hsf]
        by_cases h2 : v.feature = f
        · simp [findOrd, h2]
        · have h3 : ¬ fv.feature = f := fun hc => h2 (h1.symm.trans hc)
          simp [findOrd, h2, h3]
      · have hsf : setFeature (fv :: rest) v = fv :: setFeature rest v := by
          rw [setFeature, if_neg h1]
        rw [hsf]
        by_cases h2 : fv.feature = f
        · have h3 : ¬ v.feature = f := fun hc => h1 (h2.trans hc.symm)
          simp [findOrd, h2, h3]
        · by_cases h3 : v.feature = f
          · simp [findOrd, h2, h3, ih]
          · simp [findOrd, h2, h3, ih]

lemma findOrd_foldl_setFeature (vs b : List FeatureValue) (f : String) :
    findOrd (vs.foldl setFeature b) f = (findOrd vs.reverse f).or (findOrd b f) := by
  induction vs generalizing b with
  | nil => rfl
  | cons v vs ih =>
      rw [List.foldl_cons, ih, List.reverse_cons, findOrd_append, findOrd_setFeature]
      cases hfind : findOrd vs.reverse f with
      | some w => rfl
      | none =>
          by_cases h : v.feature = f
          · simp [findOrd, h]
          · simp [findOrd, h]

/-- C4 counterexample: the claim's right-bias for a full-phoneme right operand
is false on the program — in the notebook's recorded output of `a << t`, only
A = /ɑ/ specifies Height, yet the merge result does not agree with A there:
its Height is unspecified, because the bundle is replaced wholesale by t's. -/
theorem claim4_counterexample :
    OE.t.getFeature "Height" = none
    ∧ OE.a.getFeature "Height" = some 7
    ∧ ¬ (OE.a.mergedWith (MergeArg.ph OE.t)).getFeature "Height" =
        OE.a.getFeature "Height" := by
  refine ⟨rfl, rfl, ?_⟩
  decide

/-- C4 (amended): when B is a bare feature value or an ordered list of feature
values, A.mergedWith(B) agrees with B on every feature B specifies — for a
list the values are applied left-to-right with later entries winning on
conflict (the lookup on the reversed list) — and with A on every feature only
A specifies; merging a bare feature value is the singleton-list merge.  When B
is a full phoneme, the result instead carries exactly B's bundle (in
particular it agrees with B on every feature B specifies, but A's unshared
features are dropped).  A and B are values and are not modified. -/
theorem claim4_merge_right_bias_amended (A B : Phoneme) (v : FeatureValue)
    (vs : List FeatureValue) (f : String) :
    ((A.mergedWith (MergeArg.fvs vs)).getFeature f =
        (findOrd vs.reverse f).or (A.getFeature f))
    ∧ (A.mergedWith (MergeArg.fv v) = A.mergedWith (MergeArg.fvs [v]))
    ∧ ((A.mergedWith (MergeArg.ph B)).bundle = B.bundle)
    ∧ ((A.mergedWith (MergeArg.ph B)).getFeature f = B.getFeature f) := by
  refine ⟨?_, rfl, rfl, rfl⟩
  show findOrd (vs.foldl setFeature A.bundle) f = _
  rw [findOrd_foldl_setFeature]
  rfl

lemma getElem_append_cons (done rest : List Phoneme) (p : Phoneme) :
    (done ++ p :: rest)[done.length]? = some p := by
  rw [List.getElem?_append_right (le_refl done.length)]
  simp

lemma check_environment_env_none (r : PhonologicalRule)
    (henv : r.environment = none) (phonemes : List Phoneme) (pos : Nat)
    (p : Phoneme) (hp : phonemes[pos]? = some p) :
    r.check_environment phonemes pos = r.checkCondition p := by
  unfold PhonologicalRule.check_environment
  rw [hp, henv]
  simp

lemma sweepFrom_features_env_none (r : PhonologicalRule)
    (vs : List FeatureValue) (henv : r.environment = none)
    (hact : r.action = Action.features vs) :
    ∀ (s done : List Phoneme),
      sweepFrom r done s =
        done ++ s.map
          (fun p => if r.checkCondition p then p.mergeValues vs else p) := by
  intro s
  induction s with
  | nil =>
      intro done
      simp [sweepFrom]
  | cons p rest ih =>
      intro done
      rw [sweepFrom,
        check_environment_env_none r henv (done ++ p :: rest) done.length p
          (getElem_append_cons done rest p),
        hact]
      by_cases hc : r.checkCondition p
      · rw [if_pos hc]
        show sweepFrom r (done ++ [p.mergeValues vs]) rest = _
        rw [ih]
        simp [hc]
      · rw [if_neg hc]
        rw [ih]
        simp [hc]

/-- C1: transcription applies the rules in declaration order — the output
sequence of rule i is the input sequence of rule i+1 — and each rule makes
exactly one left-to-right sweep over the phoneme sequence, never re-triggering
on its own output within the pass: the lengthening rule Length.short >>
Length.long applied across any sequence changes each qualifying phoneme
exactly once (the sweep is a pointwise map), and the transcriber pipeline
threads the tokenized sequence through the ordered rule list. -/
theorem claim1_ordered_single_sweep (r : PhonologicalRule)
    (rs : List PhonologicalRule) (s : List Phoneme) (t : Transcriber)
    (text : String) :
    (applyRules (r :: rs) s = applyRules rs (applyRule r s))
    ∧ (applyRule OE.lengthRule s =
        s.map (fun p => if OE.lengthRule.checkCondition p
          then p.mergeValues [OEFeatures.Length.long] else p))
    ∧ (transcribe t text = (tokenize t.alphabet text).map
        (fun ps => render t.sound_inventory (applyRules t.rules ps))) := by
  refine ⟨rfl, ?_, rfl⟩
  show sweepFrom OE.lengthRule [] s = _
  rw [sweepFrom_features_env_none OE.lengthRule [OEFeatures.Length.long] rfl
    rfl s []]
  rfl

end Orthophonology
